import Mathlib

/-!
Verification development for the astro_aligner registration engine.

The definitions below are shallow embeddings of the Python source:
  * image_functions.py : `_register_scan_ssd`, `_register_scan_ssd_rot`,
    `_perform_cv_rotation`, `apply_text_rotation`, edge-filled rolls
  * workers.py : `_register_scan_ssd` (worker revision), `RegistrationWorker.run`,
    `MorphWorker.run`
  * main.py : `calculate_rotation_from_points`, `handle_image_update`,
    `handle_rotation_update`

Machine integers/floats are modelled over ℤ and ℚ; grayscale buffers are
total functions from ℤ × ℤ coordinates with explicit height/width fields;
transcendental float operations (`np.arctan2`, `cos`/`sin` inside
`cv2.getRotationMatrix2D`, the luminance projection of a symbolic colour
buffer) are uninterpreted function parameters, so every statement is
quantified over them.
-/

/-- A single-channel float buffer (`np.ndarray` of shape `(h, w)`):
height, width, and the pixel value at integer coordinates (row, column).
Values outside `[0,h) × [0,w)` are irrelevant to the embedded code, which
always guards its accesses. -/
structure Gray where
  h : ℕ
  w : ℕ
  px : ℤ → ℤ → ℚ

/-- The `anchor_details` dict `{x, y, w, h}` of a validated anchor rectangle
(non-negative position, sizes as recorded by the UI). -/
structure Anchor where
  x : ℕ
  y : ℕ
  w : ℕ
  h : ℕ
  deriving DecidableEq

/-- Python `range(-15, 15 + 1, step)` for `step ≥ 1`: the candidate offsets
of the scan-SSD shift search (`scan_range_pixels = 15` in both copies of
`_register_scan_ssd`).  `range(-15, 16, s)` has `⌈31/s⌉ = 30/s + 1`
elements. -/
def scanOffsets (step : ℕ) : List ℤ :=
  (List.range (30 / step + 1)).map (fun k : ℕ => -15 + (step : ℤ) * (k : ℤ))

/-- The scan grid in source order: `dy` outer loop ascending, `dx` inner
loop ascending (`for dy in range(...): for dx in range(...)`).
Candidates are `(dy, dx)` pairs. -/
def shiftCandidates (step : ℕ) : List (ℤ × ℤ) :=
  (scanOffsets step).flatMap (fun dy => (scanOffsets step).map (fun dx => (dy, dx)))

/-- One iteration of the running-minimum loop shared by both scan estimators:
`min_ssd` starts at `np.inf` (modelled `none`), a candidate is evaluated only
when its guard holds, and the minimum is replaced only under strict `<`.
The state is `(min_ssd, (best candidate))`. -/
def scanStep {α : Type} (ok : α → Bool) (score : α → ℚ)
    (st : Option ℚ × α) (c : α) : Option ℚ × α :=
  if ok c then
    match st.1 with
    | none => (some (score c), c)
    | some m => if score c < m then (some (score c), c) else st
  else st

/-- The whole scan loop: fold `scanStep` over the candidate list, starting
from `min_ssd = inf` and the source's initial best candidate. -/
def scanFold {α : Type} (ok : α → Bool) (score : α → ℚ)
    (init : α) (l : List α) : Option ℚ × α :=
  l.foldl (scanStep ok score) (none, init)

/-- Bounds guard of `_register_scan_ssd`:
`0 <= anc_y + dy and anc_y + dy + anc_h <= img_h and
 0 <= anc_x + dx and anc_x + dx + anc_w <= img_w`. -/
def inBounds (ad : Anchor) (cur : Gray) (dy dx : ℤ) : Bool :=
  decide (0 ≤ (ad.y : ℤ) + dy ∧ (ad.y : ℤ) + dy + ad.h ≤ (cur.h : ℤ) ∧
          0 ≤ (ad.x : ℤ) + dx ∧ (ad.x : ℤ) + dx + ad.w ≤ (cur.w : ℤ))

/-- Shape guard of `_register_scan_ssd`: the in-bounds slice has shape
`(anc_h, anc_w)`, compared against `ref_anchor.shape`. -/
def shapeOk (refA : Gray) (ad : Anchor) : Bool :=
  decide (refA.h = ad.h ∧ refA.w = ad.w)

/-- `np.sum((current_shifted_anchor - ref_anchor) ** 2)` for the slice of the
target at offset `(dy, dx)` of the anchor rectangle. -/
def ssdAt (refA cur : Gray) (ad : Anchor) (dy dx : ℤ) : ℚ :=
  ∑ i ∈ Finset.range ad.h, ∑ j ∈ Finset.range ad.w,
    (cur.px ((ad.y : ℤ) + dy + i) ((ad.x : ℤ) + dx + j) - refA.px i j) ^ 2

/-- Guard of one shift-scan candidate `(dy, dx)`: bounds check, then the
shape paranoia check. -/
def okShift (refA cur : Gray) (ad : Anchor) (c : ℤ × ℤ) : Bool :=
  inBounds ad cur c.1 c.2 && shapeOk refA ad

/-- SSD score of one shift-scan candidate `(dy, dx)`. -/
def scoreShift (refA cur : Gray) (ad : Anchor) (c : ℤ × ℤ) : ℚ :=
  ssdAt refA cur ad c.1 c.2

/-- The full shift-scan loop state after scanning the grid:
`best_dx = best_dy = 0` initially. -/
def scanShiftFold (refA cur : Gray) (ad : Anchor) (step : ℕ) : Option ℚ × (ℤ × ℤ) :=
  scanFold (okShift refA cur ad) (scoreShift refA cur ad) (0, 0) (shiftCandidates step)

namespace Workers

/-- workers.py `_register_scan_ssd(ref_anchor, current_grey, anchor_details,
step_size)`: scans the grid, and afterwards checks `min_ssd == np.inf`,
returning `(None, None)` when no valid anchor position was found, else
`(best_dx, best_dy)`. -/
def register_scan_ssd (refA cur : Gray) (ad : Anchor) (step : ℕ) :
    Option (ℤ × ℤ) :=
  let st := scanShiftFold refA cur ad step
  match st.1 with
  | none => none
  | some _ => some (st.2.2, st.2.1)

end Workers

namespace ImageFunctions

/-- image_functions.py `_register_scan_ssd(self, ref_anchor, current_grey,
anchor_details)` (the pre-worker revision): identical scan, but it returns
`(best_dx, best_dy)` unconditionally — there is no `min_ssd == np.inf`
check, so with no in-bounds candidate it returns the initial `(0, 0)`. -/
def register_scan_ssd (refA cur : Gray) (ad : Anchor) (step : ℕ) : ℤ × ℤ :=
  let st := scanShiftFold refA cur ad step
  (st.2.2, st.2.1)

end ImageFunctions

/-- `np.arange(start, stop, step)` over exact rationals: `⌈(stop-start)/step⌉`
values `start + k * step`. -/
def arangeQ (start stop step : ℚ) : List ℚ :=
  (List.range (⌈(stop - start) / step⌉).toNat).map (fun k : ℕ => start + (k : ℚ) * step)

/-- The rotation-scan grid of `_register_scan_ssd_rot`:
`np.arange(-scan_range_degrees, scan_range_degrees + step_size, step_size)`
with `scan_range_degrees = 5.0`, `step_size = 0.2`. -/
def angleGrid : List ℚ := arangeQ (-5) (5 + 1/5) (1/5)

/-- Numpy slice length with clipping: `arr[y : y + h]` of an axis of length
`n` has `min (y + h) n - y` elements (0 when `y ≥ n`, by truncated
subtraction). -/
def clipLen (n y h : ℕ) : ℕ := min (y + h) n - y

/-- Guard of one rotation-scan candidate: the clipped slice
`rot[y_start:y_end, x_start:x_end]` of the rotated image has
`ref_anchor.shape`.  `rotG` is the uninterpreted grayscale
`_perform_cv_rotation` (bilinear warp of the full target). -/
def okRot (rotG : Gray → ℚ → Gray) (refA cur : Gray) (ad : Anchor) (a : ℚ) : Bool :=
  decide (clipLen (rotG cur a).h ad.y ad.h = refA.h ∧
          clipLen (rotG cur a).w ad.x ad.w = refA.w)

/-- SSD of one rotation-scan candidate against the reference anchor patch
(consulted only under `okRot`, where the slice has exactly
`refA.h × refA.w` pixels). -/
def scoreRot (rotG : Gray → ℚ → Gray) (refA cur : Gray) (ad : Anchor) (a : ℚ) : ℚ :=
  ∑ i ∈ Finset.range refA.h, ∑ j ∈ Finset.range refA.w,
    ((rotG cur a).px ((ad.y : ℤ) + i) ((ad.x : ℤ) + j) - refA.px i j) ^ 2

namespace ImageFunctions

/-- image_functions.py `_register_scan_ssd_rot(self, ref_anchor, current_grey,
anchor_details)`: same running-minimum loop over `angleGrid`
(`best_angle = 0` initially) — the result is returned unconditionally;
the function has no failure value in its return type. -/
def register_scan_ssd_rot (rotG : Gray → ℚ → Gray) (refA cur : Gray)
    (ad : Anchor) : ℚ :=
  (scanFold (okRot rotG refA cur ad) (scoreRot rotG refA cur ad) 0 angleGrid).2

end ImageFunctions

/-- A 2×3 affine matrix as produced by `cv2.getRotationMatrix2D`. -/
structure AffineM where
  m00 : ℚ
  m01 : ℚ
  m02 : ℚ
  m10 : ℚ
  m11 : ℚ
  m12 : ℚ

/-- `cv2.getRotationMatrix2D((cX, cY), angle, 1.0)`:
`[[α, β, (1-α)·cX - β·cY], [-β, α, β·cX + (1-α)·cY]]` where `α = cos θ`,
`β = sin θ` for the requested angle.  `c` and `s` stand for those two
transcendental values. -/
def getRotationMatrix2D (c s cX cY : ℚ) : AffineM :=
  ⟨c, s, (1 - c) * cX - s * cY, -s, c, s * cX + (1 - c) * cY⟩

/-- Forward application of a 2×3 affine matrix to a point `(x, y)`. -/
def affineApply (M : AffineM) (p : ℚ × ℚ) : ℚ × ℚ :=
  (M.m00 * p.1 + M.m01 * p.2 + M.m02, M.m10 * p.1 + M.m11 * p.2 + M.m12)

/-- The source point sampled for destination pixel `(x, y)`:
`cv2.warpAffine` (without `WARP_INVERSE_MAP`) inverts `M` internally,
`src_pt = A⁻¹ · ((x, y) - t)` for `M = [A | t]`. -/
def affineSrcPt (M : AffineM) (x y : ℚ) : ℚ × ℚ :=
  let det := M.m00 * M.m11 - M.m01 * M.m10
  let rx := x - M.m02
  let ry := y - M.m12
  ((M.m11 * rx - M.m01 * ry) / det, (M.m00 * ry - M.m10 * rx) / det)

/-- One interpolation tap with `borderValue = (0, 0, 0)`: pixels outside the
source contribute 0. -/
def sampleZ (g : Gray) (y x : ℤ) : ℚ :=
  if 0 ≤ y ∧ y < (g.h : ℤ) ∧ 0 ≤ x ∧ x < (g.w : ℤ) then g.px y x else 0

/-- `INTER_LINEAR` bilinear interpolation of the source at real coordinates
`(xs, ys)` (idealised over ℚ; cv2 uses 5-bit fixed-point weights). -/
def bilinear (g : Gray) (xs ys : ℚ) : ℚ :=
  let x0 := ⌊xs⌋
  let y0 := ⌊ys⌋
  let fx := xs - x0
  let fy := ys - y0
  (1 - fy) * ((1 - fx) * sampleZ g y0 x0 + fx * sampleZ g y0 (x0 + 1)) +
    fy * ((1 - fx) * sampleZ g (y0 + 1) x0 + fx * sampleZ g (y0 + 1) (x0 + 1))

namespace ImageFunctions

/-- image_functions.py `_perform_cv_rotation(image, angle)` (one channel
shown; the three colour channels are warped identically): `None` input
gives `None`; otherwise the image is warped by
`cv2.getRotationMatrix2D((w // 2, h // 2), angle, 1.0)` to the same `(w, h)`
size with linear interpolation and black border fill.  `c`, `s` are the
cosine and sine of the angle. -/
def perform_cv_rotation (c s : ℚ) : Option Gray → Option Gray
  | none => none
  | some g =>
    let cX : ℚ := (g.w / 2 : ℕ)
    let cY : ℚ := (g.h / 2 : ℕ)
    let M := getRotationMatrix2D c s cX cY
    some { h := g.h, w := g.w,
           px := fun y x =>
             let p := affineSrcPt M (x : ℚ) (y : ℚ)
             bilinear g p.1 p.2 }

end ImageFunctions

/-- A colour (3-channel) buffer; the channel axis is untouched by rolls, so a
pixel is a value triple. -/
structure Color where
  h : ℕ
  w : ℕ
  px : ℤ → ℤ → ℚ × ℚ × ℚ

namespace Workers

/-- The shift application of `RegistrationWorker.run` (the same roll-and-fill
is inlined in `registerImages` and, one direction at a time, in
`translate_image`): `np.roll(img, (sy, sx), axis=(0, 1))`, then the
wrapped-around bands are zeroed — rows `[0, sy)` for `sy > 0`, rows
`[h+sy, h)` for `sy < 0`, and analogously columns for `sx`. -/
def apply_shift (img : Color) (sy sx : ℤ) : Color :=
  { h := img.h, w := img.w,
    px := fun y x =>
      if (0 < sy ∧ y < sy) ∨ (sy < 0 ∧ (img.h : ℤ) + sy ≤ y) ∨
         (0 < sx ∧ x < sx) ∨ (sx < 0 ∧ (img.w : ℤ) + sx ≤ x) then (0, 0, 0)
      else img.px ((y - sy) % (img.h : ℤ)) ((x - sx) % (img.w : ℤ)) }

end Workers

/-- Provenance-tracking model of a colour buffer, for the claims about which
buffer a transform is applied to: a loaded original, a rolled copy, or the
output of `_perform_cv_rotation` on some buffer at some absolute angle. -/
inductive Buf where
  | loaded (id : ℕ)
  | shifted (b : Buf) (sy sx : ℤ)
  | rot (b : Buf) (angle : ℚ)
  deriving DecidableEq

/-- One entry of `self.image_data`: the dict keys `'name'`, `'image'`,
`'image_orig'` (absent until first captured) and `'total_rotation'`. -/
structure ImgState where
  name : String
  image : Buf
  image_orig : Option Buf
  total_rotation : ℚ
  deriving DecidableEq

namespace ImageFunctions

/-- image_functions.py `apply_text_rotation(self)` once the text box holds
`target`: capture `image_orig` from the current buffer if absent, no-op when
the target matches the current total rotation to within `1e-4`, otherwise
re-rotate the preserved original by the absolute target angle. -/
def apply_text_rotation (st : ImgState) (target : ℚ) : ImgState :=
  let st1 := if st.image_orig = none then { st with image_orig := some st.image } else st
  let src := st1.image_orig.getD st1.image
  if |target - st1.total_rotation| < 1 / 10000 then st1
  else { st1 with image := Buf.rot src target, total_rotation := target }

end ImageFunctions

/-- Outcome of the two-point rotation solver: one of its early-return
message boxes, or the new target total rotation written to the rotation
text box. -/
inductive PtResult where
  | notEnoughPoints
  | refDegenerate
  | curDegenerate
  | ok (newTarget : ℚ)
  deriving DecidableEq

/-- The rotation text box round trip `setText(f"{v:.1f}")` followed by
`float(text())`: the value is rounded to one decimal place.  (Python's
float formatting resolves exact ties to even; `round` resolves them upward
— the two agree except on exact multiples of 0.05, which no float is.) -/
def fmt1 (q : ℚ) : ℚ := ((round (10 * q) : ℤ) : ℚ) / 10

/-- main.py `calculate_rotation_from_points(self)` up to the text-box write:
requires exactly 2+2 points, rejects a difference vector with both
components below `1e-6` in absolute value, else forms the delta
`degrees(arctan2(dy_ref, dx_ref)) - degrees(arctan2(dy_curr, dx_curr))` and
adds it to the current cumulative rotation.  `at2deg` is the uninterpreted
`np.degrees ∘ np.arctan2` (its values are transcendental). -/
def calculate_rotation_from_points (at2deg : ℚ → ℚ → ℚ)
    (refPts curPts : List (ℤ × ℤ)) (tot : ℚ) : PtResult :=
  match refPts, curPts with
  | [r1, r2], [c1, c2] =>
    let dxr : ℚ := ((r2.1 - r1.1 : ℤ) : ℚ)
    let dyr : ℚ := ((r2.2 - r1.2 : ℤ) : ℚ)
    let dxc : ℚ := ((c2.1 - c1.1 : ℤ) : ℚ)
    let dyc : ℚ := ((c2.2 - c1.2 : ℤ) : ℚ)
    if |dxr| < 1 / 1000000 ∧ |dyr| < 1 / 1000000 then .refDegenerate
    else if |dxc| < 1 / 1000000 ∧ |dyc| < 1 / 1000000 then .curDegenerate
    else .ok (tot + (at2deg dyr dxr - at2deg dyc dxc))
  | _, _ => .notEnoughPoints

/-- The solver's tail: on success it writes `f"{new_target:.1f}"` into the
rotation text box and calls `apply_text_rotation`, which parses the box —
so the applied absolute rotation is the rounded value. -/
def solveAndApply (at2deg : ℚ → ℚ → ℚ) (refPts curPts : List (ℤ × ℤ))
    (st : ImgState) : ImgState :=
  match calculate_rotation_from_points at2deg refPts curPts st.total_rotation with
  | .ok t => ImageFunctions.apply_text_rotation st (fmt1 t)
  | _ => st

/-- A frame of the morph sequence: `shape` is the full numpy shape triple
`(rows, cols, channels)` compared by `img1.shape != img2.shape`. -/
structure MImg where
  shape : ℕ × ℕ × ℕ
  px : ℕ → ℕ → ℕ → ℚ

/-- `np.clip(v, 0, 255)`. -/
def clip0255 (q : ℚ) : ℚ := if q ≤ 0 then 0 else if 255 ≤ q then 255 else q

/-- One interpolated morph frame:
`np.clip(img1*(1-alpha) + img2*alpha, 0, 255).astype(np.uint8)` with
`alpha = (i+1)/frame_rate`; `astype(np.uint8)` truncates (floor, values
being non-negative after the clip). -/
def interpFrame (a b : MImg) (F i : ℕ) : MImg :=
  { shape := a.shape,
    px := fun y x ch =>
      let alpha : ℚ := (i + 1 : ℚ) / F
      ((⌊clip0255 (a.px y x ch * (1 - alpha) + b.px y x ch * alpha)⌋ : ℤ) : ℚ) }

/-- Frames written for one consecutive pair inside `MorphWorker.run`
(identical loop body in `morphImages`): on shape mismatch only the second
image, once; otherwise `frame_rate - 1` interpolated frames then the second
image. -/
def pairFrames (F : ℕ) (a b : MImg) : List MImg :=
  if a.shape ≠ b.shape then [b]
  else ((List.range (F - 1)).map (fun i => interpFrame a b F i)) ++ [b]

/-- The pair loop `for idx in range(num_images - 1)`. -/
def runPairs (F : ℕ) : List MImg → List MImg
  | a :: b :: rest => pairFrames F a b ++ runPairs F (b :: rest)
  | _ => []

namespace MorphWorker

/-- The ordered frame sequence written by `MorphWorker.run` when it is not
cancelled (frame 0 is the first image, then frames for each consecutive
pair); empty input writes nothing. -/
def runFrames (imgs : List MImg) (F : ℕ) : List MImg :=
  match imgs with
  | [] => []
  | a :: _ => a :: runPairs F imgs

end MorphWorker

/-- The registration method string handed to the worker
(`'fft' | 'scan' | 'scan_rot'`, anything else hits the final else). -/
inductive Method where
  | fft
  | scan
  | scanRot
  | unknown (s : String)
  deriving DecidableEq

/-- The signals emitted by `RegistrationWorker`: `progress`, `log_message`,
`image_updated`, `rotation_updated`, `finished`, and the fatal `error`
signal, in emission order. -/
inductive Ev where
  | progress (i total : ℕ) (name : String)
  | log (msg : String)
  | imageUpdated (idx : ℕ) (b : Buf)
  | rotationUpdated (idx : ℕ) (r : ℚ)
  | finished (processed errors : ℕ)
  | fatal (msg : String)
  deriving DecidableEq

/-- The data held by a constructed `RegistrationWorker`: method, the
grayscale projection of a colour buffer (`np.dot(..., [0.2989, 0.5870,
0.1140])`, uninterpreted over symbolic buffers), `_perform_cv_rotation` on
grayscale and on colour buffers, the FFT estimator (`chi2_shift` followed
by `int(round(.))` per component, uninterpreted), the reference grayscale,
the optional reference anchor patch, the `anchor_details`, and the scan
step. -/
structure WCfg where
  method : Method
  greyOf : Buf → Gray
  rotG : Gray → ℚ → Gray
  rotC : Buf → ℚ → Option Buf
  fftEst : Gray → Gray → Option (ℤ × ℤ)
  refGrey : Gray
  refAnchor : Option Gray
  ad : Anchor
  hasAd : Bool
  step : ℕ

/-- `current_grey[y_start:y_end, x_start:x_end]` (with numpy clipping). -/
def sliceGray (g : Gray) (ad : Anchor) : Gray :=
  { h := clipLen g.h ad.y ad.h, w := clipLen g.w ad.x ad.w,
    px := fun y x => g.px ((ad.y : ℤ) + y) ((ad.x : ℤ) + x) }

namespace RegistrationWorker

/-- Lines 93–151 of workers.py: dispatch on the method and produce either
`(shift_y_int, shift_x_int, rot_angle)` or a logged failure (`errors += 1;
continue`).  In the `scan_rot` arm the estimator's result is used directly:
`_register_scan_ssd_rot` never returns `None`, so the worker's
`if rot_delta is not None` check always takes the success branch. -/
def estimatePhase (cfg : WCfg) (cur : Gray) : List Ev × Option (ℤ × ℤ × ℚ) :=
  match cfg.method with
  | .fft =>
    let anchorOk : Bool := cfg.refAnchor.isSome && cfg.hasAd
    let boundsOk : Bool :=
      decide (cfg.ad.y < cfg.ad.y + cfg.ad.h ∧ cfg.ad.y + cfg.ad.h ≤ cur.h ∧
              cfg.ad.x < cfg.ad.x + cfg.ad.w ∧ cfg.ad.x + cfg.ad.w ≤ cur.w)
    let warn : List Ev :=
      if anchorOk && !boundsOk then [.log "Anchor out of bounds, using full FFT"] else []
    let pair : Gray × Gray :=
      if anchorOk && boundsOk then (cfg.refAnchor.getD cur, sliceGray cur cfg.ad)
      else (cfg.refGrey, cur)
    match cfg.fftEst pair.1 pair.2 with
    | some (xoff, yoff) => (warn, some (-yoff, -xoff, 0))
    | none => (warn ++ [.log "FFT failed"], none)
  | .scan =>
    match cfg.refAnchor with
    | none => ([.log "Scan SSD requires an anchor"], none)
    | some refA =>
      match Workers.register_scan_ssd refA cur cfg.ad cfg.step with
      | some (dx, dy) => ([], some (-dy, -dx, 0))
      | none => ([.log "Scan SSD failed"], none)
  | .scanRot =>
    match cfg.refAnchor with
    | none => ([.log "Scan Rot requires an anchor"], none)
    | some refA =>
      (([] : List Ev),
       some (0, 0, ImageFunctions.register_scan_ssd_rot cfg.rotG refA cur cfg.ad))
  | .unknown _ => ([.log "Unknown registration method"], none)

/-- Lines 154–198 of workers.py: apply the computed transform.  A non-zero
shift rolls-and-fills the current colour buffer and emits it; a rotation
delta above `1e-4` adds the delta to the stored total and re-rotates
`image_info.get('image_orig', current)` by the new absolute angle — the
worker itself never creates `'image_orig'` (it defers that to the main
thread).  Returns the emitted events and whether the image counts as
registered. -/
def applyPhase (cfg : WCfg) (idx : ℕ) (img : ImgState) (sy sx : ℤ) (rot : ℚ) :
    List Ev × Bool :=
  if sy ≠ 0 ∨ sx ≠ 0 then
    ([.log "Applying final shift", .imageUpdated idx (Buf.shifted img.image sy sx)], true)
  else if 1 / 10000 < |rot| then
    let newTot := img.total_rotation + rot
    let src := img.image_orig.getD img.image
    match cfg.rotC src newTot with
    | some r =>
      ([.log "Applying rotation delta", .imageUpdated idx r, .rotationUpdated idx newTot], true)
    | none => ([.log "Rotation failed"], false)
  else
    ([.log "Calculated transform is zero, no change applied"], true)

/-- `self._is_cancelled` as observed at the top of iteration `i`:
cancellation is modelled as becoming (and staying) true from some iteration
on. -/
def cancelledAt (cancelFrom : Option ℕ) (i : ℕ) : Bool :=
  match cancelFrom with
  | none => false
  | some k => decide (k ≤ i)

/-- The per-image loop of `RegistrationWorker.run` with its counters: check
the cancel flag, emit progress and the processing log, estimate, apply, and
recurse with updated `registered_count`/`errors`; after the loop (or a
cancel break) emit `finished`.  An out-of-range index models the lookup
`self.image_data_list[idx]` raising in the outer `try`, which emits the
`error` signal and `finished` with the remaining images counted as
errors. -/
def workerLoop (cfg : WCfg) (imgs : List ImgState) (num : ℕ)
    (cancelFrom : Option ℕ) : ℕ → ℕ → ℕ → List ℕ → List Ev
  | _, r, e, [] => [.log "Registration Finished", .log "Processed and errors", .finished r e]
  | i, r, e, idx :: rest =>
    if cancelledAt cancelFrom i then
      [.log "Registration cancelled", .finished r e]
    else
      match imgs.get? idx with
      | none =>
        [.fatal "Critical error during registration worker execution",
         .finished r (e + (num - r - e))]
      | some img =>
        let hd : List Ev := [.progress (i + 1) num img.name, .log "Processing image"]
        let est := estimatePhase cfg (cfg.greyOf img.image)
        match est.2 with
        | none => hd ++ est.1 ++ workerLoop cfg imgs num cancelFrom (i + 1) r (e + 1) rest
        | some (sy, sx, rot) =>
          let ap := applyPhase cfg idx img sy sx rot
          if ap.2 then
            hd ++ est.1 ++ ap.1 ++ workerLoop cfg imgs num cancelFrom (i + 1) (r + 1) e rest
          else
            hd ++ est.1 ++ ap.1 ++ workerLoop cfg imgs num cancelFrom (i + 1) r (e + 1) rest

/-- `RegistrationWorker.run` on the worker's snapshot of the image list:
the startup log, then the loop over `indices_to_register`. -/
def run (cfg : WCfg) (imgs : List ImgState) (indices : List ℕ)
    (cancelFrom : Option ℕ) : List Ev :=
  Ev.log "Starting registration" :: workerLoop cfg imgs indices.length cancelFrom 0 0 0 indices

end RegistrationWorker

/-- Replace the `n`-th entry of a list (identity when out of range). -/
def modifyIdx {α : Type} (f : α → α) : ℕ → List α → List α
  | _, [] => []
  | 0, a :: l => f a :: l
  | n + 1, a :: l => a :: modifyIdx f n l

/-- The main thread's consumption of one worker signal
(`handle_image_update` stores the new buffer; `handle_rotation_update`
stores the new total rotation and — per its comment — relies on
`apply_text_rotation`/`apply_M_transformation` for `'image_orig'` creation,
so it does not create it; every other signal leaves `self.image_data`
unchanged). -/
def handle_event (st : List ImgState) (ev : Ev) : List ImgState :=
  match ev with
  | .imageUpdated idx b => modifyIdx (fun im => { im with image := b }) idx st
  | .rotationUpdated idx r => modifyIdx (fun im => { im with total_rotation := r }) idx st
  | _ => st

/-- Apply a worker's emitted signals to the main thread's image list. -/
def applyWorkerEvents (st : List ImgState) (evs : List Ev) : List ImgState :=
  evs.foldl handle_event st

/-- One registration batch end to end: `start_registration` hands the worker
a deep copy of `self.image_data`, the worker runs to completion, and the
main thread applies the incoming update signals to its own list. -/
def runBatch (cfg : WCfg) (st : List ImgState) (indices : List ℕ) : List ImgState :=
  applyWorkerEvents st (RegistrationWorker.run cfg st indices none)

/-- Recognise a `progress` signal. -/
def isProgress : Ev → Bool
  | .progress _ _ _ => true
  | _ => false

/-- Recognise an `image_updated` or `rotation_updated` signal for image
`idx`. -/
def isUpdateFor (idx : ℕ) : Ev → Bool
  | .imageUpdated j _ => decide (j = idx)
  | .rotationUpdated j _ => decide (j = idx)
  | _ => false

/-- Number of `progress` signals in a trace. -/
def countProgress (evs : List Ev) : ℕ := (evs.filter isProgress).length

/-- The buffer a `_perform_cv_rotation` output was produced from, if the
buffer is such an output. -/
def rotSource : Buf → Option Buf
  | .rot b _ => some b
  | _ => none

/-- A constant-valued grayscale buffer, for concrete evaluations. -/
def flatGray (h w : ℕ) (v : ℚ) : Gray := ⟨h, w, fun _ _ => v⟩

/-- A constant-zero morph frame of the given shape, for concrete
evaluations. -/
def mImg (s : ℕ × ℕ × ℕ) : MImg := ⟨s, fun _ _ _ => 0⟩

/-- An identity stand-in for the grayscale rotation (legitimate for the
uninterpreted `rotG`: it preserves the image size, as `warpAffine` with
fixed `(w, h)` does). -/
def rotIdG : Gray → ℚ → Gray := fun g _ => g

/-- A worker configuration for concrete `scan_rot` runs: flat 2×2 target
projection, degenerate (zero-area) anchor at (0, 0) so that every rotation
candidate is evaluated with an identical (empty-sum) SSD and the tie goes
to the grid's first angle, −5°; identity grayscale rotation,
always-succeeding colour rotation. -/
def cfgScanRotDemo : WCfg :=
  { method := .scanRot
    greyOf := fun _ => flatGray 2 2 0
    rotG := rotIdG
    rotC := fun b a => some (.rot b a)
    fftEst := fun _ _ => none
    refGrey := flatGray 2 2 0
    refAnchor := some (flatGray 0 0 0)
    ad := ⟨0, 0, 0, 0⟩
    hasAd := true
    step := 15 }

/-- A worker configuration for concrete `scan` runs: flat 31×31 target
projection, degenerate (zero-area) anchor at (15, 15), scan step 15 (so
the grid is `{-15, 0, 15}²`, all nine candidates are in-bounds and tie, and
the first candidate `(dy, dx) = (-15, -15)` wins, giving a non-zero applied
shift). -/
def cfgScanDemo : WCfg :=
  { cfgScanRotDemo with
    method := .scan
    greyOf := fun _ => flatGray 31 31 0
    refGrey := flatGray 31 31 0
    ad := ⟨15, 15, 0, 0⟩ }

/-- A worker configuration for concrete `scan` runs whose estimate is the
zero shift: 1×1 target projection, zero-area anchor at (0, 0) and step 15,
so `(0, 0)` is the only in-bounds candidate. -/
def cfgScanZeroDemo : WCfg :=
  { cfgScanRotDemo with
    method := .scan
    greyOf := fun _ => flatGray 1 1 0
    refGrey := flatGray 1 1 0 }

/-- A single freshly loaded image list, for concrete batch runs. -/
def imgs0 : List ImgState := [⟨"a", .loaded 0, none, 0⟩]

/-- A small colour buffer with position-dependent pixels, for concrete
shift evaluations. -/
def colorDemo : Color := ⟨3, 3, fun y x => ((y : ℚ), (x : ℚ), 1)⟩

/-- A concrete stand-in for `np.degrees ∘ np.arctan2` agreeing with it to
two decimals on the vectors used in the point-solver evaluation:
`degrees(arctan2(2, 1)) = 63.43...`, `degrees(arctan2(0, 1)) = 0`. -/
def at2degDemo : ℚ → ℚ → ℚ := fun dy _ => if dy = 2 then 6343 / 100 else 0

/-! ## Theorems

### Generic behaviour of the running-minimum scan loop -/

theorem scanStep_not_ok {α : Type} (ok : α → Bool) (score : α → ℚ)
    (st : Option ℚ × α) (c : α) (h : ok c = false) :
    scanStep ok score st c = st := by
  simp [scanStep, h]

theorem scanStep_ok_isSome {α : Type} (ok : α → Bool) (score : α → ℚ)
    (st : Option ℚ × α) (c : α) (h : ok c = true) :
    ((scanStep ok score st c).1).isSome := by
  rcases st with ⟨mo, b⟩
  cases mo with
  | none => simp [scanStep, h]
  | some m =>
    by_cases hlt : score c < m <;> simp [scanStep, h, hlt]

theorem scanFold_nil {α : Type} (ok : α → Bool) (score : α → ℚ) (init : α) :
    scanFold ok score init [] = (none, init) := rfl

theorem scanFold_append_single {α : Type} (ok : α → Bool) (score : α → ℚ)
    (init : α) (l : List α) (c : α) :
    scanFold ok score init (l ++ [c]) =
      scanStep ok score (scanFold ok score init l) c := by
  simp [scanFold, List.foldl_append]

theorem scanFold_none_iff {α : Type} (ok : α → Bool) (score : α → ℚ)
    (init : α) (l : List α) :
    (scanFold ok score init l).1 = none ↔ ∀ c ∈ l, ok c = false := by
  induction l using List.reverseRecOn with
  | nil => simp [scanFold_nil]
  | append_singleton l c ih =>
    rw [scanFold_append_single]
    constructor
    · intro h
      by_cases hc : ok c = true
      · have := scanStep_ok_isSome ok score (scanFold ok score init l) c hc
        rw [h] at this
        simp at this
      · have hcf : ok c = false := by simpa using hc
        rw [scanStep_not_ok _ _ _ _ hcf] at h
        intro d hd
        rcases List.mem_append.mp hd with hdl | hdc
        · exact ih.mp h d hdl
        · rw [List.mem_singleton.mp hdc]
          exact hcf
    · intro h
      have hcf : ok c = false := h c (List.mem_append_right _ (List.mem_singleton_self c))
      rw [scanStep_not_ok _ _ _ _ hcf]
      exact ih.mpr (fun d hd => h d (List.mem_append_left _ hd))

theorem scanFold_none_snd {α : Type} (ok : α → Bool) (score : α → ℚ)
    (init : α) (l : List α) (h : (scanFold ok score init l).1 = none) :
    (scanFold ok score init l).2 = init := by
  induction l using List.reverseRecOn with
  | nil => rfl
  | append_singleton l c ih =>
    rw [scanFold_append_single] at h ⊢
    by_cases hc : ok c = true
    · have := scanStep_ok_isSome ok score (scanFold ok score init l) c hc
      rw [h] at this
      simp at this
    · have hcf : ok c = false := by simpa using hc
      rw [scanStep_not_ok _ _ _ _ hcf] at h ⊢
      exact ih h

theorem getElem?_append_singleton_last {α : Type} {l : List α} {c d : α} {j : ℕ}
    (hj : (l ++ [c])[j]? = some d) (hnot : ¬ j < l.length) : d = c ∧ j = l.length := by
  have hlen : j < l.length + 1 := by
    have := (List.getElem?_eq_some.mp hj).1
    simpa using this
  have hje : j = l.length := by omega
  subst hje
  rw [List.getElem?_concat_length] at hj
  exact ⟨(Option.some.inj hj).symm, rfl⟩

/-- The running minimum with strict `<` replacement returns the first
candidate (in list order) attaining the minimal score among the candidates
whose guard holds. -/
theorem scanFold_first_min {α : Type} (ok : α → Bool) (score : α → ℚ) (init : α)
    (l : List α) :
    ∀ m, (scanFold ok score init l).1 = some m →
      ∃ (k : ℕ) (c : α), l[k]? = some c ∧ ok c = true ∧ score c = m ∧
        (scanFold ok score init l).2 = c ∧
        (∀ (j : ℕ) (d : α), l[j]? = some d → ok d = true → m ≤ score d) ∧
        (∀ (j : ℕ) (d : α), j < k → l[j]? = some d → ok d = true → m < score d) := by
  induction l using List.reverseRecOn with
  | nil =>
    intro m h
    simp [scanFold_nil] at h
  | append_singleton l c ih =>
    intro m h
    rw [scanFold_append_single] at h ⊢
    by_cases hc : ok c = true
    · rcases hprev : (scanFold ok score init l).1 with _ | m'
      · -- no previous minimum: every guard in `l` failed, the step records `c`
        have hnone : ∀ d ∈ l, ok d = false := (scanFold_none_iff ok score init l).mp hprev
        have hstep : scanStep ok score (scanFold ok score init l) c = (some (score c), c) := by
          rcases hpair : scanFold ok score init l with ⟨mo, b⟩
          rw [hpair] at hprev
          simp at hprev
          subst hprev
          simp [scanStep, hc]
        rw [hstep] at h ⊢
        simp only at h
        have hm : score c = m := Option.some.inj h
        refine ⟨l.length, c, List.getElem?_concat_length l c, hc, hm, rfl, ?_, ?_⟩
        · intro j d hj hojd
          by_cases hjl : j < l.length
          · exfalso
            have hdl : d ∈ l := List.getElem?_mem (by rwa [List.getElem?_append_left hjl] at hj)
            rw [hnone d hdl] at hojd
            exact Bool.false_ne_true hojd
          · obtain ⟨rfl, _⟩ := getElem?_append_singleton_last hj hjl
            exact le_of_eq hm.symm
        · intro j d hjk hj hojd
          exfalso
          have hjl : j < l.length := hjk
          have hdl : d ∈ l := List.getElem?_mem (by rwa [List.getElem?_append_left hjl] at hj)
          rw [hnone d hdl] at hojd
          exact Bool.false_ne_true hojd
      · -- a previous minimum `m'` exists
        obtain ⟨k, d0, hk, hok, hs, hbest, hall, hfirst⟩ := ih m' hprev
        have hklt : k < l.length := by
          have := (List.getElem?_eq_some.mp hk).1
          exact this
        by_cases hlt : score c < m'
        · -- strict improvement: the step replaces the minimum with `c`
          have hstep : scanStep ok score (scanFold ok score init l) c = (some (score c), c) := by
            rcases hpair : scanFold ok score init l with ⟨mo, b⟩
            rw [hpair] at hprev
            simp only at hprev
            subst hprev
            simp [scanStep, hc, hlt]
          rw [hstep] at h ⊢
          simp only at h
          have hm : score c = m := Option.some.inj h
          refine ⟨l.length, c, List.getElem?_concat_length l c, hc, hm, rfl, ?_, ?_⟩
          · intro j d hj hojd
            by_cases hjl : j < l.length
            · have hdj : l[j]? = some d := by rwa [List.getElem?_append_left hjl] at hj
              have := hall j d hdj hojd
              calc m = score c := hm.symm
                _ ≤ m' := le_of_lt hlt
                _ ≤ score d := this
            · obtain ⟨rfl, _⟩ := getElem?_append_singleton_last hj hjl
              exact le_of_eq hm.symm
          · intro j d hjk hj hojd
            have hjl : j < l.length := hjk
            have hdj : l[j]? = some d := by rwa [List.getElem?_append_left hjl] at hj
            have := hall j d hdj hojd
            calc m = score c := hm.symm
              _ < m' := hlt
              _ ≤ score d := this
        · -- no improvement: the step keeps the earlier first minimum
          have hstep : scanStep ok score (scanFold ok score init l) c = scanFold ok score init l := by
            rcases hpair : scanFold ok score init l with ⟨mo, b⟩
            rw [hpair] at hprev
            simp only at hprev
            subst hprev
            simp [scanStep, hc, hlt]
          rw [hstep] at h ⊢
          rw [hprev] at h
          have hm : m' = m := Option.some.inj h
          subst hm
          refine ⟨k, d0, ?_, hok, hs, hbest, ?_, ?_⟩
          · rw [List.getElem?_append_left hklt]
            exact hk
          · intro j d hj hojd
            by_cases hjl : j < l.length
            · exact hall j d (by rwa [List.getElem?_append_left hjl] at hj) hojd
            · obtain ⟨rfl, _⟩ := getElem?_append_singleton_last hj hjl
              exact le_of_not_lt hlt
          · intro j d hjk hj hojd
            have hjl : j < l.length := lt_trans hjk hklt
            exact hfirst j d hjk (by rwa [List.getElem?_append_left hjl] at hj) hojd
    · -- guard fails on `c`: the step is the identity
      have hcf : ok c = false := by simpa using hc
      rw [scanStep_not_ok _ _ _ _ hcf] at h ⊢
      obtain ⟨k, d0, hk, hok, hs, hbest, hall, hfirst⟩ := ih m h
      have hklt : k < l.length := (List.getElem?_eq_some.mp hk).1
      refine ⟨k, d0, ?_, hok, hs, hbest, ?_, ?_⟩
      · rw [List.getElem?_append_left hklt]
        exact hk
      · intro j d hj hojd
        by_cases hjl : j < l.length
        · exact hall j d (by rwa [List.getElem?_append_left hjl] at hj) hojd
        · obtain ⟨rfl, _⟩ := getElem?_append_singleton_last hj hjl
          rw [hcf] at hojd
          exact absurd hojd Bool.false_ne_true
      · intro j d hjk hj hojd
        have hjl : j < l.length := lt_trans hjk hklt
        exact hfirst j d hjk (by rwa [List.getElem?_append_left hjl] at hj) hojd

theorem foldl_scanStep_filter {α : Type} (ok : α → Bool) (score : α → ℚ) :
    ∀ (l : List α) (st : Option ℚ × α),
      (l.filter ok).foldl (scanStep ok score) st = l.foldl (scanStep ok score) st := by
  intro l
  induction l with
  | nil => intro st; rfl
  | cons c t ih =>
    intro st
    by_cases hc : ok c = true
    · rw [List.filter_cons_of_pos hc]
      simp only [List.foldl_cons]
      exact ih _
    · have hcf : ok c = false := by simpa using hc
      rw [List.filter_cons_of_neg (by simp [hcf])]
      simp only [List.foldl_cons]
      rw [scanStep_not_ok _ _ _ _ hcf]
      exact ih st

theorem pairwise_flatMap_of {α β : Type} {R : β → β → Prop} {f : α → List β} :
    ∀ {l : List α}, (∀ a ∈ l, (f a).Pairwise R) →
      l.Pairwise (fun a b => ∀ x ∈ f a, ∀ y ∈ f b, R x y) →
      (l.flatMap f).Pairwise R := by
  intro l
  induction l with
  | nil => intro _ _; simp
  | cons a t ih =>
    intro h1 h2
    rw [List.flatMap_cons]
    apply List.pairwise_append.mpr
    obtain ⟨hcross, htail⟩ := List.pairwise_cons.mp h2
    refine ⟨h1 a (by simp), ih (fun b hb => h1 b (by simp [hb])) htail, ?_⟩
    intro x hx y hy
    obtain ⟨b, hb, hyb⟩ := List.mem_flatMap.mp hy
    exact hcross b hb x hx y hyb

theorem scanShiftFold_def (refA cur : Gray) (ad : Anchor) (step : ℕ) :
    scanShiftFold refA cur ad step =
      scanFold (okShift refA cur ad) (scoreShift refA cur ad) (0, 0) (shiftCandidates step) := rfl

/-- C2 (amended): both copies of the scan-SSD shift estimator evaluate only
candidate offsets whose shifted anchor patch passes the bounds (and shape)
guard — dropping the guarded-out candidates from the scan changes nothing,
and a returned offset always passes the guard.  When no candidate passes,
the worker copy (workers.py) returns the no-solution signal `(None, None)`,
but the legacy copy (image_functions.py) falls through to the default
`(0, 0)`. -/
theorem scan_ssd_in_bounds_and_no_solution_amended (refA cur : Gray) (ad : Anchor) (step : ℕ) :
    (Workers.register_scan_ssd refA cur ad step = none ↔
      ∀ c ∈ shiftCandidates step, okShift refA cur ad c = false) ∧
    (∀ dx dy : ℤ, Workers.register_scan_ssd refA cur ad step = some (dx, dy) →
      okShift refA cur ad (dy, dx) = true) ∧
    (scanShiftFold refA cur ad step =
      scanFold (okShift refA cur ad) (scoreShift refA cur ad) (0, 0)
        ((shiftCandidates step).filter (okShift refA cur ad))) ∧
    ((∀ c ∈ shiftCandidates step, okShift refA cur ad c = false) →
      ImageFunctions.register_scan_ssd refA cur ad step = (0, 0)) := by
  refine ⟨⟨?_, ?_⟩, ?_, ?_, ?_⟩
  · intro h
    have hm : (scanShiftFold refA cur ad step).1 = none := by
      rcases hm2 : (scanShiftFold refA cur ad step).1 with _ | m
      · rfl
      · simp [Workers.register_scan_ssd, hm2] at h
    rw [scanShiftFold_def] at hm
    exact (scanFold_none_iff _ _ _ _).mp hm
  · intro hall
    have hm : (scanShiftFold refA cur ad step).1 = none := by
      rw [scanShiftFold_def]
      exact (scanFold_none_iff _ _ _ _).mpr hall
    simp [Workers.register_scan_ssd, hm]
  · intro dx dy h
    rcases hm : (scanShiftFold refA cur ad step).1 with _ | m
    · simp [Workers.register_scan_ssd, hm] at h
    · obtain ⟨k, c, hk, hok, hs, hbest, hall, hfirst⟩ :=
        scanFold_first_min (okShift refA cur ad) (scoreShift refA cur ad) (0, 0)
          (shiftCandidates step) m (by rw [← scanShiftFold_def]; exact hm)
      have hpair : (scanShiftFold refA cur ad step).2 = (dy, dx) := by
        simp [Workers.register_scan_ssd, hm] at h
        exact Prod.ext h.2 h.1
      rw [scanShiftFold_def] at hpair
      have hc : c = (dy, dx) := hbest.symm.trans hpair
      rw [← hc]
      exact hok
  · rw [scanShiftFold_def]
    unfold scanFold
    exact (foldl_scanStep_filter _ _ _ _).symm
  · intro hall
    have hm : (scanShiftFold refA cur ad step).1 = none := by
      rw [scanShiftFold_def]
      exact (scanFold_none_iff _ _ _ _).mpr hall
    have h2 := scanFold_none_snd (okShift refA cur ad) (scoreShift refA cur ad) (0, 0)
      (shiftCandidates step) (by rw [← scanShiftFold_def]; exact hm)
    rw [← scanShiftFold_def] at h2
    simp [ImageFunctions.register_scan_ssd, h2]

set_option maxRecDepth 2000 in
/-- C2 (counterexample to the claim as stated): with a 10×10 anchor and a
5×5 target, no scan candidate is in-bounds, yet the legacy
`_register_scan_ssd` of image_functions.py returns the default offset
`(0, 0)` — not a no-solution signal (its return type has none). -/
theorem scan_ssd_legacy_returns_default_when_no_candidate :
    (∀ c ∈ shiftCandidates 15, okShift (flatGray 10 10 0) (flatGray 5 5 0) ⟨0, 0, 10, 10⟩ c = false) ∧
    ImageFunctions.register_scan_ssd (flatGray 10 10 0) (flatGray 5 5 0) ⟨0, 0, 10, 10⟩ 15 = (0, 0) := by
  constructor
  · decide
  · decide

set_option maxRecDepth 2000 in
/-- C2 witness: the amended theorem applied to the 10×10-anchor / 5×5-target
instance. -/
theorem scan_ssd_in_bounds_and_no_solution_amended_witness :
    Workers.register_scan_ssd (flatGray 10 10 0) (flatGray 5 5 0) ⟨0, 0, 10, 10⟩ 15 = none ∧
    ImageFunctions.register_scan_ssd (flatGray 10 10 0) (flatGray 5 5 0) ⟨0, 0, 10, 10⟩ 15 = (0, 0) :=
  ⟨(scan_ssd_in_bounds_and_no_solution_amended (flatGray 10 10 0) (flatGray 5 5 0)
      ⟨0, 0, 10, 10⟩ 15).1.mpr (by decide),
   (scan_ssd_in_bounds_and_no_solution_amended (flatGray 10 10 0) (flatGray 5 5 0)
      ⟨0, 0, 10, 10⟩ 15).2.2.2 (by decide)⟩

/-- C4: when several candidate offsets attain the minimal SSD, the worker
scan-SSD estimator returns the first minimum encountered in scan order: the
candidate grid is lexicographically ascending (`dy` outer loop ascending,
`dx` inner loop ascending), the returned offset passed the guard, its SSD
is minimal among all evaluated candidates, and every earlier-scanned
evaluated candidate has strictly larger SSD — the running minimum is
replaced only under strict less-than. -/
theorem scan_ssd_tie_break_first_minimum (refA cur : Gray) (ad : Anchor)
    (step : ℕ) (hstep : 1 ≤ step) (dx dy : ℤ)
    (h : Workers.register_scan_ssd refA cur ad step = some (dx, dy)) :
    (shiftCandidates step).Pairwise
      (fun c1 c2 => c1.1 < c2.1 ∨ (c1.1 = c2.1 ∧ c1.2 < c2.2)) ∧
    ∃ k : ℕ, (shiftCandidates step)[k]? = some (dy, dx) ∧
      okShift refA cur ad (dy, dx) = true ∧
      (∀ (j : ℕ) (d : ℤ × ℤ), (shiftCandidates step)[j]? = some d →
        okShift refA cur ad d = true →
        scoreShift refA cur ad (dy, dx) ≤ scoreShift refA cur ad d) ∧
      (∀ (j : ℕ) (d : ℤ × ℤ), j < k → (shiftCandidates step)[j]? = some d →
        okShift refA cur ad d = true →
        scoreShift refA cur ad (dy, dx) < scoreShift refA cur ad d) := by
  constructor
  · have hoff : (scanOffsets step).Pairwise (· < ·) := by
      unfold scanOffsets
      refine (List.pairwise_lt_range _).map _ ?_
      intro a b hab
      have hs : (0 : ℤ) < (step : ℤ) := by exact_mod_cast hstep
      have hab2 : (a : ℤ) < (b : ℤ) := by exact_mod_cast hab
      have := mul_lt_mul_of_pos_left hab2 hs
      omega
    unfold shiftCandidates
    apply pairwise_flatMap_of
    · intro dy0 _
      refine hoff.map _ ?_
      intro a b hab
      exact Or.inr ⟨rfl, hab⟩
    · refine hoff.imp ?_
      intro a b hab x hx y hy
      obtain ⟨dxa, _, rfl⟩ := List.mem_map.mp hx
      obtain ⟨dxb, _, rfl⟩ := List.mem_map.mp hy
      exact Or.inl hab
  · rcases hm : (scanShiftFold refA cur ad step).1 with _ | m
    · simp [Workers.register_scan_ssd, hm] at h
    · obtain ⟨k, c, hk, hok, hs, hbest, hall, hfirst⟩ :=
        scanFold_first_min (okShift refA cur ad) (scoreShift refA cur ad) (0, 0)
          (shiftCandidates step) m (by rw [← scanShiftFold_def]; exact hm)
      have hpair : (scanShiftFold refA cur ad step).2 = (dy, dx) := by
        simp [Workers.register_scan_ssd, hm] at h
        exact Prod.ext h.2 h.1
      rw [scanShiftFold_def] at hpair
      have hc : c = (dy, dx) := hbest.symm.trans hpair
      subst hc
      refine ⟨k, hk, hok, ?_, ?_⟩
      · intro j d hj hd
        rw [hs]
        exact hall j d hj hd
      · intro j d hjk hj hd
        rw [hs]
        exact hfirst j d hjk hj hd

set_option maxRecDepth 2000 in
/-- C4 witness: a flat 31×31 target with a zero-area anchor at (15, 15) and
step 15 — all nine scan candidates tie with SSD 0, and the estimator
returns the first one in scan order, `(dy, dx) = (-15, -15)`. -/
theorem scan_ssd_tie_break_first_minimum_witness :
    Workers.register_scan_ssd (flatGray 0 0 0) (flatGray 31 31 0) ⟨15, 15, 0, 0⟩ 15 =
      some (-15, -15) ∧
    okShift (flatGray 0 0 0) (flatGray 31 31 0) ⟨15, 15, 0, 0⟩ (-15, -15) = true := by
  refine ⟨by decide, ?_⟩
  obtain ⟨-, k, hk, hok, hall, hfirst⟩ :=
    scan_ssd_tie_break_first_minimum (flatGray 0 0 0) (flatGray 31 31 0) ⟨15, 15, 0, 0⟩ 15
      (by decide) (-15) (-15) (by decide)
  exact hok

theorem angleGrid_eq :
    angleGrid = (List.range 51).map (fun k : ℕ => (-5 : ℚ) + (k : ℚ) * (1/5)) := by
  unfold angleGrid arangeQ
  rw [show (⌈((5 + 1/5 : ℚ) - -5) / (1/5)⌉).toNat = 51 by
    rw [show (⌈((5 + 1/5 : ℚ) - -5) / (1/5)⌉ : ℤ) = 51 by norm_num]
    decide]

/-- C6: the rotation scan's candidate grid is `np.arange`'s 51 angles
`-5 + 0.2·k`, running from −5° to +5° inclusive; but at an input where no
candidate patch is extractable (anchor 5×5 against a 2×2 target, so every
rotated slice is clipped to 2×2 and fails the shape check), the estimator
returns the initial default angle `0` — the `None` the worker tests for is
never produced. -/
theorem scan_rot_grid_and_default_return_eval :
    angleGrid = (List.range 51).map (fun k : ℕ => (-5 : ℚ) + (k : ℚ) * (1/5)) ∧
    angleGrid[0]? = some (-5 + (0 : ℚ) * (1/5)) ∧
    angleGrid[50]? = some (-5 + (50 : ℚ) * (1/5)) ∧
    ((-5 : ℚ) + (0 : ℚ) * (1/5) = -5) ∧
    ((-5 : ℚ) + (50 : ℚ) * (1/5) = 5) ∧
    (∀ a : ℚ, okRot rotIdG (flatGray 5 5 0) (flatGray 2 2 0) ⟨0, 0, 5, 5⟩ a = false) ∧
    ImageFunctions.register_scan_ssd_rot rotIdG (flatGray 5 5 0) (flatGray 2 2 0)
      ⟨0, 0, 5, 5⟩ = 0 := by
  have hOkFalse : ∀ a : ℚ,
      okRot rotIdG (flatGray 5 5 0) (flatGray 2 2 0) ⟨0, 0, 5, 5⟩ a = false := by
    intro a
    simp [okRot, rotIdG, clipLen, flatGray]
  refine ⟨angleGrid_eq, ?_, ?_, by norm_num, by norm_num, hOkFalse, ?_⟩
  · rw [angleGrid_eq]
    simp
  · rw [angleGrid_eq]
    simp
  · have h1 : (scanFold (okRot rotIdG (flatGray 5 5 0) (flatGray 2 2 0) ⟨0, 0, 5, 5⟩)
        (scoreRot rotIdG (flatGray 5 5 0) (flatGray 2 2 0) ⟨0, 0, 5, 5⟩) 0 angleGrid).1 = none :=
      (scanFold_none_iff _ _ _ _).mpr (fun a _ => hOkFalse a)
    exact scanFold_none_snd _ _ _ _ h1

theorem runPairs_length (F : ℕ) (hF : 1 ≤ F) :
    ∀ l : List MImg, (∀ a ∈ l, ∀ b ∈ l, a.shape = b.shape) →
      (runPairs F l).length = (l.length - 1) * F := by
  intro l
  induction l with
  | nil => intro _; simp [runPairs]
  | cons a tail ih =>
    intro hsh
    cases tail with
    | nil => simp [runPairs]
    | cons b rest =>
      have hab : a.shape = b.shape := hsh a (by simp) b (by simp)
      have hstep : runPairs F (a :: b :: rest) = pairFrames F a b ++ runPairs F (b :: rest) := rfl
      have h1 : (pairFrames F a b).length = F := by
        rw [pairFrames, if_neg (by simp [hab])]
        simp only [List.length_append, List.length_map, List.length_range,
          List.length_cons, List.length_nil]
        omega
      have h2 := ih (fun a2 ha2 b2 hb2 => hsh a2 (by simp [ha2]) b2 (by simp [hb2]))
      rw [hstep, List.length_append, h1, h2]
      simp only [List.length_cons, Nat.add_sub_cancel]
      ring

/-- C3: for `N ≥ 2` equal-shape images and frame rate `F ≥ 2` the morph
worker emits exactly `N + (N-1)·(F-1)` frames, the first emitted frame is
the first image, and for a consecutive pair with differing shapes the
pair's contribution is its second image alone — no interpolated frames. -/
theorem morph_frame_count_and_mismatch :
    (∀ (imgs : List MImg) (F : ℕ), 2 ≤ imgs.length → 2 ≤ F →
      (∀ a ∈ imgs, ∀ b ∈ imgs, a.shape = b.shape) →
      (MorphWorker.runFrames imgs F).length = imgs.length + (imgs.length - 1) * (F - 1)) ∧
    (∀ (imgs : List MImg) (F : ℕ), (MorphWorker.runFrames imgs F).head? = imgs.head?) ∧
    (∀ (a b : MImg) (F : ℕ), a.shape ≠ b.shape → pairFrames F a b = [b]) := by
  refine ⟨?_, ?_, ?_⟩
  · intro imgs F hN hF hsh
    rcases imgs with _ | ⟨a, tail⟩
    · simp at hN
    · have hrf : MorphWorker.runFrames (a :: tail) F = a :: runPairs F (a :: tail) := rfl
      rw [hrf, List.length_cons, runPairs_length F (by omega) (a :: tail) hsh]
      obtain ⟨f, rfl⟩ : ∃ f, F = f + 1 := ⟨F - 1, by omega⟩
      simp only [List.length_cons, Nat.add_sub_cancel]
      ring
  · intro imgs F
    rcases imgs with _ | ⟨a, tail⟩ <;> rfl
  · intro a b F hne
    simp [pairFrames, hne]

/-- C3 witness: three 2×2×3 frames at frame rate 4 give 3 + 2·3 = 9 morph
frames; a (1,1,3)-shaped frame against a (2,2,3)-shaped one contributes
only the second image. -/
theorem morph_frame_count_and_mismatch_witness :
    (MorphWorker.runFrames [mImg (2, 2, 3), mImg (2, 2, 3), mImg (2, 2, 3)] 4).length = 9 ∧
    pairFrames 4 (mImg (1, 1, 3)) (mImg (2, 2, 3)) = [mImg (2, 2, 3)] :=
  ⟨morph_frame_count_and_mismatch.1 [mImg (2, 2, 3), mImg (2, 2, 3), mImg (2, 2, 3)] 4
      (by decide) (by decide) (by intro a ha b hb; fin_cases ha <;> fin_cases hb <;> rfl),
   morph_frame_count_and_mismatch.2.2 (mImg (1, 1, 3)) (mImg (2, 2, 3)) 4 (by decide)⟩

/-- C7: applying the roll-and-fill shift with `(dy, dx)` (with `|dy| < h`,
`|dx| < w`) and then with `(-dy, -dx)` restores the original value at every
pixel untouched by the zero-fill bands — exactly those `(y, x)` for which
the once-shifted position `(y + dy, x + dx)` is still inside the image. -/
theorem shift_inverse_restores_interior (img : Color) (sy sx y x : ℤ)
    (hsy : |sy| < (img.h : ℤ)) (hsx : |sx| < (img.w : ℤ))
    (hy0 : 0 ≤ y) (hy1 : y < (img.h : ℤ)) (hx0 : 0 ≤ x) (hx1 : x < (img.w : ℤ))
    (hyi : 0 ≤ y + sy) (hyi2 : y + sy < (img.h : ℤ))
    (hxi : 0 ≤ x + sx) (hxi2 : x + sx < (img.w : ℤ)) :
    (Workers.apply_shift (Workers.apply_shift img sy sx) (-sy) (-sx)).px y x = img.px y x := by
  have cond2 : ¬ ((0 < -sy ∧ y < -sy) ∨ (-sy < 0 ∧ (img.h : ℤ) + -sy ≤ y) ∨
      (0 < -sx ∧ x < -sx) ∨ (-sx < 0 ∧ (img.w : ℤ) + -sx ≤ x)) := by omega
  have cond1 : ¬ ((0 < sy ∧ y + sy < sy) ∨ (sy < 0 ∧ (img.h : ℤ) + sy ≤ y + sy) ∨
      (0 < sx ∧ x + sx < sx) ∨ (sx < 0 ∧ (img.w : ℤ) + sx ≤ x + sx)) := by omega
  show (if (0 < -sy ∧ y < -sy) ∨ (-sy < 0 ∧ (img.h : ℤ) + -sy ≤ y) ∨
      (0 < -sx ∧ x < -sx) ∨ (-sx < 0 ∧ (img.w : ℤ) + -sx ≤ x) then ((0 : ℚ), (0 : ℚ), (0 : ℚ))
    else (Workers.apply_shift img sy sx).px ((y - -sy) % (img.h : ℤ)) ((x - -sx) % (img.w : ℤ)))
      = img.px y x
  rw [if_neg cond2]
  have hy2 : y - -sy = y + sy := by ring
  have hx2 : x - -sx = x + sx := by ring
  rw [hy2, hx2, Int.emod_eq_of_lt hyi hyi2, Int.emod_eq_of_lt hxi hxi2]
  show (if (0 < sy ∧ y + sy < sy) ∨ (sy < 0 ∧ (img.h : ℤ) + sy ≤ y + sy) ∨
      (0 < sx ∧ x + sx < sx) ∨ (sx < 0 ∧ (img.w : ℤ) + sx ≤ x + sx) then ((0 : ℚ), (0 : ℚ), (0 : ℚ))
    else img.px ((y + sy - sy) % (img.h : ℤ)) ((x + sx - sx) % (img.w : ℤ))) = img.px y x
  rw [if_neg cond1]
  have hy3 : y + sy - sy = y := by ring
  have hx3 : x + sx - sx = x := by ring
  rw [hy3, hx3, Int.emod_eq_of_lt hy0 hy1, Int.emod_eq_of_lt hx0 hx1]

/-- C7 witness: a 3×3 buffer shifted by `(1, 1)` and back restores the pixel
at `(0, 0)`. -/
theorem shift_inverse_restores_interior_witness :
    (Workers.apply_shift (Workers.apply_shift colorDemo 1 1) (-1) (-1)).px 0 0 =
      colorDemo.px 0 0 :=
  shift_inverse_restores_interior colorDemo 1 1 0 0 (by decide) (by decide) (by decide)
    (by decide) (by decide) (by decide) (by decide) (by decide) (by decide) (by decide)

theorem sampleZ_eq_zero (g : Gray) (y x : ℤ)
    (h : y < 0 ∨ (g.h : ℤ) ≤ y ∨ x < 0 ∨ (g.w : ℤ) ≤ x) : sampleZ g y x = 0 := by
  rw [sampleZ, if_neg]
  omega

theorem bilinear_outside (g : Gray) (xs ys : ℚ)
    (h : ⌊xs⌋ < -1 ∨ (g.w : ℤ) ≤ ⌊xs⌋ ∨ ⌊ys⌋ < -1 ∨ (g.h : ℤ) ≤ ⌊ys⌋) :
    bilinear g xs ys = 0 := by
  have h1 : sampleZ g ⌊ys⌋ ⌊xs⌋ = 0 := sampleZ_eq_zero _ _ _ (by omega)
  have h2 : sampleZ g ⌊ys⌋ (⌊xs⌋ + 1) = 0 := sampleZ_eq_zero _ _ _ (by omega)
  have h3 : sampleZ g (⌊ys⌋ + 1) ⌊xs⌋ = 0 := sampleZ_eq_zero _ _ _ (by omega)
  have h4 : sampleZ g (⌊ys⌋ + 1) (⌊xs⌋ + 1) = 0 := sampleZ_eq_zero _ _ _ (by omega)
  simp only [bilinear, h1, h2, h3, h4]
  ring

/-- C9: the rotation primitive is total with an explicit failure value —
`None` in gives `None` out; on success the output has the input's size, the
affine matrix used fixes the integer centre `(w // 2, h // 2)`, and any
destination pixel whose source point falls fully outside the input samples
only the black border fill, i.e. is 0. -/
theorem cv_rotation_contract (c s : ℚ) :
    ImageFunctions.perform_cv_rotation c s none = none ∧
    (∀ g : Gray, ∃ out : Gray,
      ImageFunctions.perform_cv_rotation c s (some g) = some out ∧
      out.h = g.h ∧ out.w = g.w) ∧
    (∀ g : Gray,
      affineApply (getRotationMatrix2D c s ((g.w / 2 : ℕ) : ℚ) ((g.h / 2 : ℕ) : ℚ))
          (((g.w / 2 : ℕ) : ℚ), ((g.h / 2 : ℕ) : ℚ)) =
        (((g.w / 2 : ℕ) : ℚ), ((g.h / 2 : ℕ) : ℚ))) ∧
    (∀ (g : Gray) (y x : ℤ) (out : Gray),
      ImageFunctions.perform_cv_rotation c s (some g) = some out →
      (⌊(affineSrcPt (getRotationMatrix2D c s ((g.w / 2 : ℕ) : ℚ) ((g.h / 2 : ℕ) : ℚ))
          (x : ℚ) (y : ℚ)).1⌋ < -1 ∨
       (g.w : ℤ) ≤ ⌊(affineSrcPt (getRotationMatrix2D c s ((g.w / 2 : ℕ) : ℚ)
          ((g.h / 2 : ℕ) : ℚ)) (x : ℚ) (y : ℚ)).1⌋ ∨
       ⌊(affineSrcPt (getRotationMatrix2D c s ((g.w / 2 : ℕ) : ℚ) ((g.h / 2 : ℕ) : ℚ))
          (x : ℚ) (y : ℚ)).2⌋ < -1 ∨
       (g.h : ℤ) ≤ ⌊(affineSrcPt (getRotationMatrix2D c s ((g.w / 2 : ℕ) : ℚ)
          ((g.h / 2 : ℕ) : ℚ)) (x : ℚ) (y : ℚ)).2⌋) →
      out.px y x = 0) := by
  refine ⟨rfl, ?_, ?_, ?_⟩
  · intro g
    exact ⟨_, rfl, rfl, rfl⟩
  · intro g
    simp only [affineApply, getRotationMatrix2D]
    rw [Prod.mk.injEq]
    constructor <;> ring
  · intro g y x out hout hsrc
    have hpx : out.px y x =
        bilinear g (affineSrcPt (getRotationMatrix2D c s ((g.w / 2 : ℕ) : ℚ)
          ((g.h / 2 : ℕ) : ℚ)) (x : ℚ) (y : ℚ)).1
          (affineSrcPt (getRotationMatrix2D c s ((g.w / 2 : ℕ) : ℚ)
          ((g.h / 2 : ℕ) : ℚ)) (x : ℚ) (y : ℚ)).2 := by
      have hout2 := Option.some.inj hout
      rw [← hout2]
    rw [hpx]
    apply bilinear_outside
    tauto

/-- C9 witness: at cosine 1/2, sine 0 (a contraction, so corners sample
outside), a 4×4 input yields a same-size output whose pixel (0, 0) samples
source point (−2, −2) and is therefore black. -/
theorem cv_rotation_contract_witness :
    ImageFunctions.perform_cv_rotation (1/2) 0 none = none ∧
    (ImageFunctions.perform_cv_rotation (1/2) 0 (some (flatGray 4 4 1))).map Gray.h = some 4 ∧
    (ImageFunctions.perform_cv_rotation (1/2) 0 (some (flatGray 4 4 1))).map
      (fun o => o.px 0 0) = some 0 := by
  obtain ⟨h1, h2, h3, h4⟩ := cv_rotation_contract (1/2) 0
  obtain ⟨out, hout, hh, hw⟩ := h2 (flatGray 4 4 1)
  refine ⟨h1, ?_, ?_⟩
  · rw [hout]
    simp only [Option.map_some']
    rw [hh]
    rfl
  · rw [hout]
    simp only [Option.map_some']
    rw [h4 (flatGray 4 4 1) 0 0 out hout ?_]
    left
    norm_num [affineSrcPt, getRotationMatrix2D, flatGray]

theorem int_cast_small_iff (a : ℤ) : |((a : ℤ) : ℚ)| < 1 / 1000000 ↔ a = 0 := by
  constructor
  · intro h
    by_contra hne
    have h1 : (1 : ℤ) ≤ |a| := Int.one_le_abs hne
    have h2 : (1 : ℚ) ≤ |((a : ℤ) : ℚ)| := by
      rw [← Int.cast_abs]
      exact_mod_cast h1
    linarith
  · rintro rfl
    norm_num

/-- The `< 1e-6` guard on an integer-coordinate difference vector holds
exactly when the two points coincide. -/
theorem degenerate_iff (p q : ℤ × ℤ) :
    (|((q.1 - p.1 : ℤ) : ℚ)| < 1 / 1000000 ∧ |((q.2 - p.2 : ℤ) : ℚ)| < 1 / 1000000) ↔ q = p := by
  rw [int_cast_small_iff, int_cast_small_iff, Prod.ext_iff]
  omega

/-- C5 (amended): with 2+2 points, the solver reports a reference (resp.
target) input error exactly when the two reference (resp. target) points
coincide — for integer pixel coordinates the `< 1e-6` component guard is
exact equality — and otherwise it forms the delta
`at2deg(dy_ref, dx_ref) - at2deg(dy_cur, dx_cur)` (the uninterpreted
degrees-of-arctan2) and adds it to the current cumulative rotation; the
absolute rotation actually applied is that sum rounded to one decimal place
by the rotation-text-box round trip, not the exact sum. -/
theorem point_solver_delta_guard_amended (at2deg : ℚ → ℚ → ℚ)
    (r1 r2 c1 c2 : ℤ × ℤ) (tot : ℚ) (st : ImgState) :
    (calculate_rotation_from_points at2deg [r1, r2] [c1, c2] tot = .refDegenerate ↔ r2 = r1) ∧
    (r2 ≠ r1 →
      (calculate_rotation_from_points at2deg [r1, r2] [c1, c2] tot = .curDegenerate ↔ c2 = c1)) ∧
    (r2 ≠ r1 → c2 ≠ c1 →
      calculate_rotation_from_points at2deg [r1, r2] [c1, c2] tot =
        .ok (tot + (at2deg ((r2.2 - r1.2 : ℤ) : ℚ) ((r2.1 - r1.1 : ℤ) : ℚ) -
                    at2deg ((c2.2 - c1.2 : ℤ) : ℚ) ((c2.1 - c1.1 : ℤ) : ℚ)))) ∧
    (r2 ≠ r1 → c2 ≠ c1 →
      solveAndApply at2deg [r1, r2] [c1, c2] st =
        ImageFunctions.apply_text_rotation st
          (fmt1 (st.total_rotation +
            (at2deg ((r2.2 - r1.2 : ℤ) : ℚ) ((r2.1 - r1.1 : ℤ) : ℚ) -
             at2deg ((c2.2 - c1.2 : ℤ) : ℚ) ((c2.1 - c1.1 : ℤ) : ℚ))))) := by
  have hdef : ∀ t : ℚ, calculate_rotation_from_points at2deg [r1, r2] [c1, c2] t =
      (if |((r2.1 - r1.1 : ℤ) : ℚ)| < 1 / 1000000 ∧ |((r2.2 - r1.2 : ℤ) : ℚ)| < 1 / 1000000
       then PtResult.refDegenerate
       else if |((c2.1 - c1.1 : ℤ) : ℚ)| < 1 / 1000000 ∧ |((c2.2 - c1.2 : ℤ) : ℚ)| < 1 / 1000000
       then PtResult.curDegenerate
       else .ok (t + (at2deg ((r2.2 - r1.2 : ℤ) : ℚ) ((r2.1 - r1.1 : ℤ) : ℚ) -
                      at2deg ((c2.2 - c1.2 : ℤ) : ℚ) ((c2.1 - c1.1 : ℤ) : ℚ)))) :=
    fun _ => rfl
  refine ⟨?_, ?_, ?_, ?_⟩
  · rw [hdef]
    by_cases hr : r2 = r1
    · rw [if_pos ((degenerate_iff r1 r2).mpr hr)]
      simp [hr]
    · rw [if_neg (fun hcon => hr ((degenerate_iff r1 r2).mp hcon))]
      constructor
      · intro hres
        by_cases hc : |((c2.1 - c1.1 : ℤ) : ℚ)| < 1 / 1000000 ∧
            |((c2.2 - c1.2 : ℤ) : ℚ)| < 1 / 1000000
        · rw [if_pos hc] at hres
          exact absurd hres (by simp)
        · rw [if_neg hc] at hres
          exact absurd hres (by simp)
      · intro hq
        exact absurd hq hr
  · intro hr
    rw [hdef, if_neg (fun hcon => hr ((degenerate_iff r1 r2).mp hcon))]
    by_cases hc : c2 = c1
    · rw [if_pos ((degenerate_iff c1 c2).mpr hc)]
      simp [hc]
    · rw [if_neg (fun hcon => hc ((degenerate_iff c1 c2).mp hcon))]
      simp [hc]
  · intro hr hc
    rw [hdef, if_neg (fun hcon => hr ((degenerate_iff r1 r2).mp hcon)),
      if_neg (fun hcon => hc ((degenerate_iff c1 c2).mp hcon))]
  · intro hr hc
    have hok : calculate_rotation_from_points at2deg [r1, r2] [c1, c2] st.total_rotation =
        .ok (st.total_rotation +
          (at2deg ((r2.2 - r1.2 : ℤ) : ℚ) ((r2.1 - r1.1 : ℤ) : ℚ) -
           at2deg ((c2.2 - c1.2 : ℤ) : ℚ) ((c2.1 - c1.1 : ℤ) : ℚ))) := by
      rw [hdef, if_neg (fun hcon => hr ((degenerate_iff r1 r2).mp hcon)),
        if_neg (fun hcon => hc ((degenerate_iff c1 c2).mp hcon))]
    simp only [solveAndApply, hok]

/-- C5 (counterexample to the claim as stated): with reference points
(0,0),(1,2) and target points (0,0),(1,0), a stand-in arctan2 value of
63.43° for the reference vector and 0° for the target vector, the solver
computes new target 63.43, but the rotation actually applied (after the
text box's `%.1f` round trip) is 63.4 — not the current rotation plus the
delta. -/
theorem point_solver_applied_rotation_rounded_counterexample :
    calculate_rotation_from_points at2degDemo [(0, 0), (1, 2)] [(0, 0), (1, 0)] 0 =
      .ok (6343 / 100) ∧
    (solveAndApply at2degDemo [(0, 0), (1, 2)] [(0, 0), (1, 0)]
        ⟨"a", .loaded 0, none, 0⟩).total_rotation = 634 / 10 ∧
    (634 / 10 : ℚ) ≠ 6343 / 100 := by
  have h1 : calculate_rotation_from_points at2degDemo [(0, 0), (1, 2)] [(0, 0), (1, 0)] 0 =
      .ok (6343 / 100) := by
    rw [show calculate_rotation_from_points at2degDemo [(0, 0), (1, 2)] [(0, 0), (1, 0)] 0 =
      (if |((1 : ℤ) : ℚ)| < 1 / 1000000 ∧ |((2 : ℤ) : ℚ)| < 1 / 1000000
       then PtResult.refDegenerate
       else if |((1 : ℤ) : ℚ)| < 1 / 1000000 ∧ |((0 : ℤ) : ℚ)| < 1 / 1000000
       then PtResult.curDegenerate
       else .ok (0 + (at2degDemo 2 1 - at2degDemo 0 1))) from rfl]
    rw [if_neg (by norm_num), if_neg (by norm_num)]
    norm_num [at2degDemo]
  have hfmt : fmt1 (6343 / 100) = 634 / 10 := by
    rw [fmt1, round_eq]
    norm_num
  refine ⟨h1, ?_, by norm_num⟩
  simp only [solveAndApply, h1, hfmt]
  rw [show ImageFunctions.apply_text_rotation ⟨"a", .loaded 0, none, 0⟩ (634 / 10) =
    (if |((634 / 10 : ℚ)) - 0| < 1 / 10000
     then (⟨"a", .loaded 0, some (.loaded 0), 0⟩ : ImgState)
     else ⟨"a", Buf.rot (.loaded 0) (634 / 10), some (.loaded 0), 634 / 10⟩) from rfl]
  rw [if_neg (by
    rw [show |((634 / 10 : ℚ)) - 0| = 634 / 10 by
      rw [sub_zero]
      exact abs_of_nonneg (by norm_num)]
    norm_num)]

/-- C5 witness: the amended theorem at concrete non-degenerate points. -/
theorem point_solver_delta_guard_amended_witness :
    calculate_rotation_from_points at2degDemo [(0, 0), (1, 2)] [(0, 0), (1, 0)] 5 =
      .ok (5 + (at2degDemo ((((1, 2) : ℤ × ℤ).2 - ((0, 0) : ℤ × ℤ).2 : ℤ) : ℚ)
                  ((((1, 2) : ℤ × ℤ).1 - ((0, 0) : ℤ × ℤ).1 : ℤ) : ℚ) -
                at2degDemo ((((1, 0) : ℤ × ℤ).2 - ((0, 0) : ℤ × ℤ).2 : ℤ) : ℚ)
                  ((((1, 0) : ℤ × ℤ).1 - ((0, 0) : ℤ × ℤ).1 : ℤ) : ℚ))) ∧
    solveAndApply at2degDemo [(0, 0), (1, 2)] [(0, 0), (1, 0)] ⟨"b", .loaded 1, none, 5⟩ =
      ImageFunctions.apply_text_rotation ⟨"b", .loaded 1, none, 5⟩
        (fmt1 ((5 : ℚ) + (at2degDemo ((((1, 2) : ℤ × ℤ).2 - ((0, 0) : ℤ × ℤ).2 : ℤ) : ℚ)
                  ((((1, 2) : ℤ × ℤ).1 - ((0, 0) : ℤ × ℤ).1 : ℤ) : ℚ) -
                at2degDemo ((((1, 0) : ℤ × ℤ).2 - ((0, 0) : ℤ × ℤ).2 : ℤ) : ℚ)
                  ((((1, 0) : ℤ × ℤ).1 - ((0, 0) : ℤ × ℤ).1 : ℤ) : ℚ)))) :=
  ⟨(point_solver_delta_guard_amended at2degDemo (0, 0) (1, 2) (0, 0) (1, 0) 5
      ⟨"b", .loaded 1, none, 5⟩).2.2.1 (by decide) (by decide),
   (point_solver_delta_guard_amended at2degDemo (0, 0) (1, 2) (0, 0) (1, 0) 5
      ⟨"b", .loaded 1, none, 5⟩).2.2.2 (by decide) (by decide)⟩

theorem estimatePhase_events_log (cfg : WCfg) (cur : Gray) :
    ∀ e ∈ (RegistrationWorker.estimatePhase cfg cur).1, ∃ s, e = .log s := by
  intro e he
  obtain ⟨method, greyOf, rotG, rotC, fftEst, refGrey, refAnchor, ad, hasAd, step⟩ := cfg
  unfold RegistrationWorker.estimatePhase at he
  cases method with
  | fft =>
    simp only at he
    split at he
    · simp at he
      obtain ⟨-, rfl⟩ := he
      exact ⟨_, rfl⟩
    · simp at he
      rcases he with ⟨-, rfl⟩ | rfl
      · exact ⟨_, rfl⟩
      · exact ⟨_, rfl⟩
  | scan =>
    cases refAnchor with
    | none =>
      simp at he
      exact ⟨_, he⟩
    | some refA =>
      simp only at he
      split at he
      · simp at he
      · simp at he
        exact ⟨_, he⟩
  | scanRot =>
    cases refAnchor with
    | none =>
      simp at he
      exact ⟨_, he⟩
    | some refA =>
      simp at he
  | unknown s =>
    simp at he
    exact ⟨_, he⟩

theorem countProgress_append (l1 l2 : List Ev) :
    countProgress (l1 ++ l2) = countProgress l1 + countProgress l2 := by
  simp [countProgress, List.filter_append]

theorem estimatePhase_no_progress (cfg : WCfg) (cur : Gray) :
    countProgress (RegistrationWorker.estimatePhase cfg cur).1 = 0 := by
  rw [countProgress, List.length_eq_zero, List.filter_eq_nil_iff]
  intro e he
  obtain ⟨s, rfl⟩ := estimatePhase_events_log cfg cur e he
  simp [isProgress]

theorem applyPhase_no_progress (cfg : WCfg) (idx : ℕ) (img : ImgState) (sy sx : ℤ) (rot : ℚ) :
    countProgress (RegistrationWorker.applyPhase cfg idx img sy sx rot).1 = 0 := by
  unfold RegistrationWorker.applyPhase
  split
  · simp [countProgress, isProgress]
  · split
    · dsimp only
      split
      · simp [countProgress, isProgress]
      · simp [countProgress, isProgress]
    · simp [countProgress, isProgress]

theorem foldl_handle_event_logs (evs : List Ev) (h : ∀ e ∈ evs, ∃ s, e = .log s) :
    ∀ st : List ImgState, evs.foldl handle_event st = st := by
  induction evs with
  | nil => intro st; rfl
  | cons e rest ih =>
    intro st
    obtain ⟨s, rfl⟩ := h e (by simp)
    exact ih (fun e2 he2 => h e2 (by simp [he2])) st

theorem countProgress_workerLoop (cfg : WCfg) (imgs : List ImgState) (num : ℕ) :
    ∀ indices : List ℕ, (∀ idx ∈ indices, idx < imgs.length) →
      ∀ i r e : ℕ,
        countProgress (RegistrationWorker.workerLoop cfg imgs num none i r e indices) =
          indices.length := by
  intro indices
  induction indices with
  | nil =>
    intro _ i r e
    simp [RegistrationWorker.workerLoop, countProgress, isProgress]
  | cons idx rest ih =>
    intro hvalid i r e
    have hidx : idx < imgs.length := hvalid idx (by simp)
    obtain ⟨img, himg⟩ : ∃ img, imgs.get? idx = some img :=
      ⟨imgs.get ⟨idx, hidx⟩, List.get?_eq_get hidx⟩
    have hrest : ∀ j ∈ rest, j < imgs.length := fun j hj => hvalid j (by simp [hj])
    have h1 : countProgress [Ev.progress (i + 1) num img.name, Ev.log "Processing image"] = 1 := by
      simp [countProgress, isProgress]
    have h0 : countProgress (RegistrationWorker.estimatePhase cfg (cfg.greyOf img.image)).1 = 0 :=
      estimatePhase_no_progress cfg (cfg.greyOf img.image)
    rw [RegistrationWorker.workerLoop]
    simp only [RegistrationWorker.cancelledAt, Bool.false_eq_true, if_false, himg]
    rcases hest : RegistrationWorker.estimatePhase cfg (cfg.greyOf img.image) with ⟨evs, res⟩
    rw [hest] at h0
    dsimp only at h0 ⊢
    cases res with
    | none =>
      rw [countProgress_append, countProgress_append, h1, h0, ih hrest]
      simp only [List.length_cons]
      omega
    | some tr =>
      rcases tr with ⟨sy, sx, rot⟩
      rcases hap : RegistrationWorker.applyPhase cfg idx img sy sx rot with ⟨aevs, okb⟩
      have ha0 : countProgress aevs = 0 := by
        have := applyPhase_no_progress cfg idx img sy sx rot
        rwa [hap] at this
      dsimp only
      cases okb with
      | true =>
        rw [hap]
        dsimp only
        rw [if_pos (rfl : true = true)]
        rw [countProgress_append, countProgress_append, countProgress_append, h1, h0, ha0,
          ih hrest]
        simp only [List.length_cons]
        omega
      | false =>
        rw [hap]
        dsimp only
        rw [if_neg (Bool.false_ne_true)]
        rw [countProgress_append, countProgress_append, countProgress_append, h1, h0, ha0,
          ih hrest]
        simp only [List.length_cons]
        omega

/-- C8 (amended): in a batch that runs to completion (no cancellation, all
indices valid), the worker emits exactly one progress signal per image —
at the start of that image's processing, before its estimation — so the
batch emits exactly `k` progress signals for `k` images. -/
theorem progress_count_equals_batch_size_amended (cfg : WCfg) (imgs : List ImgState)
    (indices : List ℕ) (hvalid : ∀ idx ∈ indices, idx < imgs.length) :
    countProgress (RegistrationWorker.run cfg imgs indices none) = indices.length := by
  rw [RegistrationWorker.run]
  rw [show countProgress (Ev.log "Starting registration" ::
      RegistrationWorker.workerLoop cfg imgs indices.length none 0 0 0 indices) =
    countProgress (RegistrationWorker.workerLoop cfg imgs indices.length none 0 0 0 indices) by
    simp [countProgress, isProgress]]
  exact countProgress_workerLoop cfg imgs indices.length indices hvalid 0 0 0

set_option maxRecDepth 4000 in
/-- C8 (counterexample to the claim as stated): in a completed one-image
batch with a successful shift, the batch's single progress signal sits at
trace position 1, before the image's processing logs and its
`image_updated` result at position 4 — it is emitted at the start of the
image's processing, not after the image. -/
theorem progress_emitted_before_image_processing :
    countProgress (RegistrationWorker.run cfgScanDemo imgs0 [0] none) = 1 ∧
    (RegistrationWorker.run cfgScanDemo imgs0 [0] none)[1]? = some (.progress 1 1 "a") ∧
    (RegistrationWorker.run cfgScanDemo imgs0 [0] none)[4]? =
      some (.imageUpdated 0 (Buf.shifted (.loaded 0) 15 15)) := by
  refine ⟨by decide, by decide, by decide⟩

set_option maxRecDepth 4000 in
/-- C8 witness: the amended count theorem on a concrete completed one-image
batch. -/
theorem progress_count_equals_batch_size_amended_witness :
    countProgress (RegistrationWorker.run cfgScanDemo imgs0 [0] none) = 1 :=
  progress_count_equals_batch_size_amended cfgScanDemo imgs0 [0] (by decide)

/-- C10: in a single-image batch whose estimated transform is zero (both
shift components 0 and `|rot| ≤ 1e-4`), the worker emits no `image_updated`
or `rotation_updated` signal for the image (so the main thread's buffer and
cumulative rotation are untouched), yet the final `finished` signal still
counts the image as processed: `finished(1, 0)`. -/
theorem zero_transform_no_update_still_counted (cfg : WCfg) (imgs : List ImgState)
    (idx : ℕ) (img : ImgState) (evs : List Ev) (rot : ℚ)
    (himg : imgs.get? idx = some img)
    (hest : RegistrationWorker.estimatePhase cfg (cfg.greyOf img.image) = (evs, some (0, 0, rot)))
    (hrot : |rot| ≤ 1 / 10000) :
    (∀ e ∈ RegistrationWorker.run cfg imgs [idx] none, isUpdateFor idx e = false) ∧
    (RegistrationWorker.run cfg imgs [idx] none).getLast? = some (.finished 1 0) ∧
    applyWorkerEvents imgs (RegistrationWorker.run cfg imgs [idx] none) = imgs := by
  have hnlt : ¬ ((1 : ℚ) / 10000 < |rot|) := not_lt.mpr hrot
  have happly : RegistrationWorker.applyPhase cfg idx img 0 0 rot =
      ([.log "Calculated transform is zero, no change applied"], true) := by
    rw [RegistrationWorker.applyPhase, if_neg (by simp), if_neg hnlt]
  have hevs : ∀ e ∈ evs, ∃ s, e = Ev.log s := by
    have h := estimatePhase_events_log cfg (cfg.greyOf img.image)
    rw [hest] at h
    exact h
  have htrace : RegistrationWorker.run cfg imgs [idx] none =
      ([Ev.log "Starting registration", .progress 1 1 img.name, .log "Processing image"] ++ evs) ++
      [.log "Calculated transform is zero, no change applied",
       .log "Registration Finished", .log "Processed and errors", .finished 1 0] := by
    rw [RegistrationWorker.run, RegistrationWorker.workerLoop]
    simp only [RegistrationWorker.cancelledAt, Bool.false_eq_true, if_false, himg]
    rw [hest]
    dsimp only
    rw [happly]
    dsimp only
    rw [if_pos (rfl : true = true)]
    rw [RegistrationWorker.workerLoop]
    simp
  refine ⟨?_, ?_, ?_⟩
  · intro e he
    rw [htrace] at he
    rcases List.mem_append.mp he with h12 | hB
    · rcases List.mem_append.mp h12 with hA | hevs2
      · fin_cases hA <;> rfl
      · obtain ⟨s, rfl⟩ := hevs _ hevs2
        rfl
    · fin_cases hB <;> rfl
  · rw [htrace]
    rw [List.getLast?_append_of_ne_nil]
    · rfl
    · simp
  · rw [htrace, applyWorkerEvents, List.foldl_append, List.foldl_append]
    have h1 : List.foldl handle_event imgs
        [Ev.log "Starting registration", .progress 1 1 img.name, .log "Processing image"] =
        imgs := rfl
    rw [h1, foldl_handle_event_logs evs hevs imgs]
    rfl

set_option maxRecDepth 4000 in
/-- C10 witness: the theorem applied to a concrete one-image batch whose
scan estimate is the zero shift. -/
theorem zero_transform_no_update_still_counted_witness :
    (RegistrationWorker.run cfgScanZeroDemo imgs0 [0] none).getLast? = some (.finished 1 0) ∧
    applyWorkerEvents imgs0 (RegistrationWorker.run cfgScanZeroDemo imgs0 [0] none) = imgs0 :=
  ⟨(zero_transform_no_update_still_counted cfgScanZeroDemo imgs0 0 ⟨"a", .loaded 0, none, 0⟩
      [] 0 (by decide) (by decide) (by norm_num)).2.1,
   (zero_transform_no_update_still_counted cfgScanZeroDemo imgs0 0 ⟨"a", .loaded 0, none, 0⟩
      [] 0 (by decide) (by decide) (by norm_num)).2.2⟩

theorem scanFold_const_score {α : Type} (ok : α → Bool) (score : α → ℚ) (init : α)
    (hok : ∀ c, ok c = true) (s : ℚ) (hs : ∀ c, score c = s) (x : α) (l : List α) :
    scanFold ok score init (x :: l) = (some s, x) := by
  have hstep1 : scanStep ok score (none, init) x = (some s, x) := by
    simp [scanStep, hok x, hs x]
  have hfix : ∀ t : List α, List.foldl (scanStep ok score) (some s, x) t = (some s, x) := by
    intro t
    induction t with
    | nil => rfl
    | cons c t2 ih =>
      have hc : scanStep ok score (some s, x) c = (some s, x) := by
        simp [scanStep, hok c, hs c, lt_irrefl]
      rw [List.foldl_cons, hc, ih]
  rw [scanFold, List.foldl_cons, hstep1, hfix]

/-- With a zero-area anchor every rotation candidate is evaluated (the
clipped slice trivially matches the empty reference patch) with SSD 0, so
the running minimum settles on the first grid angle, −5. -/
theorem register_scan_ssd_rot_flat_eval :
    ImageFunctions.register_scan_ssd_rot rotIdG (flatGray 0 0 0) (flatGray 2 2 0)
      ⟨0, 0, 0, 0⟩ = -5 := by
  have hok : ∀ a : ℚ, okRot rotIdG (flatGray 0 0 0) (flatGray 2 2 0) ⟨0, 0, 0, 0⟩ a = true := by
    intro a
    simp [okRot, rotIdG, clipLen, flatGray]
  have hsc : ∀ a : ℚ, scoreRot rotIdG (flatGray 0 0 0) (flatGray 2 2 0) ⟨0, 0, 0, 0⟩ a = 0 := by
    intro a
    simp [scoreRot, flatGray]
  obtain ⟨tl, htl⟩ : ∃ tl, angleGrid = ((-5 : ℚ) + ((0 : ℕ) : ℚ) * (1/5)) :: tl := by
    rw [angleGrid_eq, show (51 : ℕ) = 50 + 1 from rfl, List.range_succ_eq_map, List.map_cons]
    exact ⟨_, rfl⟩
  rw [ImageFunctions.register_scan_ssd_rot, htl,
    scanFold_const_score _ _ _ hok 0 hsc]
  norm_num

set_option maxRecDepth 2000 in
/-- C1: *code_bug* — the scan-rotation registration path does **not** always
rotate from a preserved original buffer.  The worker rotates
`image_info.get('image_orig', current)` (workers.py line 186) and defers
the creation of `'image_orig'` to the main thread, but
`handle_rotation_update` (main.py line 1735) never creates it either.
Concretely: running the same one-image `scan_rot` batch twice (each run
estimating a −5° delta) leaves `image_orig` absent throughout, so the
second run rotates the *already-rotated* buffer
`Buf.rot (Buf.loaded 0) (-5)` by the new absolute angle −10 — the rotation
source of the final buffer is the rotated buffer, not the original, and
the result differs from re-rotating the original by −10 as the spec
requires. -/
theorem worker_rotation_rederives_from_rotated_buffer :
    runBatch cfgScanRotDemo (runBatch cfgScanRotDemo imgs0 [0]) [0]
      = [⟨"a", Buf.rot (Buf.rot (Buf.loaded 0) (-5)) (-10), none, -10⟩] ∧
    rotSource (Buf.rot (Buf.rot (Buf.loaded 0) (-5)) (-10)) = some (Buf.rot (Buf.loaded 0) (-5)) ∧
    Buf.rot (Buf.rot (Buf.loaded 0) (-5)) (-10) ≠ Buf.rot (Buf.loaded 0) (-10) := by
  have hestG : ∀ b : Buf,
      RegistrationWorker.estimatePhase cfgScanRotDemo (cfgScanRotDemo.greyOf b)
        = ([], some (0, 0, -5)) := by
    intro b
    have h0 : RegistrationWorker.estimatePhase cfgScanRotDemo (cfgScanRotDemo.greyOf b)
        = ([], some (0, 0,
            ImageFunctions.register_scan_ssd_rot rotIdG (flatGray 0 0 0) (flatGray 2 2 0)
              ⟨0, 0, 0, 0⟩)) := rfl
    rw [h0, register_scan_ssd_rot_flat_eval]
  have happ1 : RegistrationWorker.applyPhase cfgScanRotDemo 0 ⟨"a", .loaded 0, none, 0⟩ 0 0 (-5)
      = ([.log "Applying rotation delta",
          .imageUpdated 0 (Buf.rot (Buf.loaded 0) (-5)),
          .rotationUpdated 0 (-5)], true) := by
    rw [RegistrationWorker.applyPhase, if_neg (by simp), if_pos (by norm_num)]
    norm_num [cfgScanRotDemo, Option.getD]
  have htrace1 : RegistrationWorker.run cfgScanRotDemo imgs0 [0] none =
      [Ev.log "Starting registration", .progress 1 1 "a", .log "Processing image",
       .log "Applying rotation delta", .imageUpdated 0 (Buf.rot (Buf.loaded 0) (-5)),
       .rotationUpdated 0 (-5),
       .log "Registration Finished", .log "Processed and errors", .finished 1 0] := by
    rw [RegistrationWorker.run, RegistrationWorker.workerLoop]
    simp only [RegistrationWorker.cancelledAt, Bool.false_eq_true, if_false,
      show imgs0.get? 0 = some (⟨"a", .loaded 0, none, 0⟩ : ImgState) from rfl]
    rw [hestG]
    dsimp only
    rw [happ1]
    dsimp only
    rw [if_pos (rfl : true = true)]
    rw [RegistrationWorker.workerLoop]
    simp [imgs0]
  have hb1 : runBatch cfgScanRotDemo imgs0 [0]
      = [⟨"a", Buf.rot (Buf.loaded 0) (-5), none, -5⟩] := by
    rw [runBatch, htrace1]
    rfl
  have happ2 : RegistrationWorker.applyPhase cfgScanRotDemo 0
      ⟨"a", Buf.rot (Buf.loaded 0) (-5), none, -5⟩ 0 0 (-5)
      = ([.log "Applying rotation delta",
          .imageUpdated 0 (Buf.rot (Buf.rot (Buf.loaded 0) (-5)) (-10)),
          .rotationUpdated 0 (-10)], true) := by
    rw [RegistrationWorker.applyPhase, if_neg (by simp), if_pos (by norm_num)]
    norm_num [cfgScanRotDemo, Option.getD]
  have htrace2 : RegistrationWorker.run cfgScanRotDemo
      [⟨"a", Buf.rot (Buf.loaded 0) (-5), none, -5⟩] [0] none =
      [Ev.log "Starting registration", .progress 1 1 "a", .log "Processing image",
       .log "Applying rotation delta",
       .imageUpdated 0 (Buf.rot (Buf.rot (Buf.loaded 0) (-5)) (-10)),
       .rotationUpdated 0 (-10),
       .log "Registration Finished", .log "Processed and errors", .finished 1 0] := by
    rw [RegistrationWorker.run, RegistrationWorker.workerLoop]
    simp only [RegistrationWorker.cancelledAt, Bool.false_eq_true, if_false,
      show ([⟨"a", Buf.rot (Buf.loaded 0) (-5), none, -5⟩] : List ImgState).get? 0
        = some ⟨"a", Buf.rot (Buf.loaded 0) (-5), none, -5⟩ from rfl]
    rw [hestG]
    dsimp only
    rw [happ2]
    dsimp only
    rw [if_pos (rfl : true = true)]
    rw [RegistrationWorker.workerLoop]
    simp
  refine ⟨?_, rfl, ?_⟩
  · rw [hb1, runBatch, htrace2]
    rfl
  · intro h
    have h2 := (Buf.rot.inj h).1
    exact Buf.noConfusion h2
